import Mathlib

set_option maxRecDepth 4000

namespace SecureStream

/-- Big-endian value of a byte list (encoding/binary's `BigEndian.Uint64` when
the list has 8 entries). -/
def beNat (bs : List Nat) : Nat :=
  bs.foldl (fun a b => a * 256 + b) 0

/-- Big-endian byte encoding of a natural number in `w` bytes (encoding/binary's
`BigEndian.PutUint64` when `w = 8`). -/
def beBytes : Nat → Nat → List Nat
  | 0, _ => []
  | w + 1, n => beBytes w (n / 256) ++ [n % 256]

/-- `adjustIVForOffset` from src/stream.go. `none` models the panic taken when
the IV is not exactly 16 bytes; otherwise the first 8 bytes of the input are
copied and the last 8 bytes hold the big-endian 64-bit counter plus
`offset / 16` (Go `int64` truncated division, `uint64` wrap-around addition). -/
def adjustIVForOffset (originalIV : List Nat) (offset : Int) : Option (List Nat) :=
  if originalIV.length = 16 then
    let blockOffset : Int := Int.tdiv offset 16
    let counter : Nat := beNat (originalIV.drop 8)
    let counter2 : Nat := (((counter : Int) + blockOffset) % (2 ^ 64)).toNat
    some (originalIV.take 8 ++ beBytes 8 counter2)
  else
    none

/-- Counter block consumed by the `j`-th keystream block of Go's crypto/cipher
CTR mode when started from `iv`: the IV is incremented `j` times, each
increment acting big-endian on the whole 16-byte block (the carry propagates
through all 16 bytes and wraps modulo 2^128). -/
def ctrCounterBlock (iv : List Nat) (j : Nat) : List Nat :=
  beBytes 16 ((beNat iv + j) % 2 ^ 128)

/-- The `j`-th keystream block of CTR mode over an arbitrary 16-byte block
cipher `E` (for the program, `E` is AES under the caller's key). -/
def ctrKeystreamBlock (E : List Nat → List Nat) (iv : List Nat) (j : Nat) : List Nat :=
  E (ctrCounterBlock iv j)

/-- Error values surfaced by the Go code: the four range-parse errors of
src/stream.go, the `strconv.ParseInt` error propagated by `parseRangeOffset`,
and crypto/aes's `KeySizeError`. -/
inductive Err where
  | invalidRangeHeader
  | invalidRangeFormat
  | invalidStartByte
  | invalidEndByte
  | rangeOutOfBounds
  | numError
  | keySize
deriving DecidableEq

deriving instance DecidableEq for Except

/-- `strings.Split(s, "-")` for a one-character separator: every occurrence of
`sep` separates fields, empty fields included; the empty string yields one
empty field. -/
def splitOnChar (sep : Char) (s : List Char) : List (List Char) :=
  match s with
  | [] => [[]]
  | c :: rest =>
    let r := splitOnChar sep rest
    if c = sep then [] :: r
    else
      match r with
      | [] => [[c]]
      | p :: ps => (c :: p) :: ps

/-- Value of a string of decimal digits (most significant first). -/
def digitsToNat (s : List Char) : Nat :=
  s.foldl (fun a c => a * 10 + (c.toNat - 48)) 0

/-- A non-empty all-decimal-digit string, or failure. -/
def parseDigits (s : List Char) : Option Nat :=
  if s ≠ [] ∧ s.all (fun c => c.isDigit) then some (digitsToNat s) else none

/-- Go `strconv.ParseInt(s, 10, 64)`: optional single leading sign, then one
or more ASCII decimal digits, and the value must fit in a signed 64-bit
integer; anything else is an error (`none`). -/
def parseInt64 (s : List Char) : Option Int :=
  match s with
  | [] => none
  | c :: rest =>
    if c = '+' then
      (parseDigits rest).bind (fun n => if n ≤ 2 ^ 63 - 1 then some (n : Int) else none)
    else if c = '-' then
      (parseDigits rest).bind (fun n => if n ≤ 2 ^ 63 then some (-(n : Int)) else none)
    else
      (parseDigits s).bind (fun n => if n ≤ 2 ^ 63 - 1 then some (n : Int) else none)

/-- The literal `"bytes="` marker that both parsers strip. -/
def bytesMarker : List Char := "bytes=".toList

/-- `parseRangeOffset` from src/stream.go: headers without the `"bytes="`
marker (the empty header included) yield offset 0 with no error; otherwise the
remainder is split on `'-'`, exactly two fields are required, and only the
first field is parsed as an integer (the result of `strconv.ParseInt`,
value or error, is returned directly). -/
def parseRangeOffset (rangeHeader : List Char) : Except Err Int :=
  if bytesMarker.isPrefixOf rangeHeader then
    match splitOnChar '-' (rangeHeader.drop 6) with
    | [a, _b] =>
      match parseInt64 a with
      | some v => .ok v
      | none => .error .numError
    | _ => .error .invalidRangeFormat
  else
    .ok 0

/-- `parseByteRange` from src/stream.go: empty header means the whole resource
`(0, size)`; otherwise the header must carry the `"bytes="` marker, split into
exactly two dash-separated fields, both fields must parse as `int64`, the
bounds must satisfy `start ≤ end ∧ end < size`, and the result is
`(start, end - start + 1)`. -/
def parseByteRange (byteRange : List Char) (size : Int) : Except Err (Int × Int) :=
  if byteRange = [] then .ok (0, size)
  else if bytesMarker.isPrefixOf byteRange then
    match splitOnChar '-' (byteRange.drop 6) with
    | [a, b] =>
      match parseInt64 a with
      | none => .error .invalidStartByte
      | some start =>
        match parseInt64 b with
        | none => .error .invalidEndByte
        | some stop =>
          if start > stop ∨ stop ≥ size then .error .rangeOutOfBounds
          else .ok (start, stop - start + 1)
    | _ => .error .invalidRangeFormat
  else .error .invalidRangeHeader

/-- The side effects a relay performs on its `http.ResponseWriter`, in program
order: `Header().Set` of each response header (with its payload), the
`WriteHeader` call that commits the status/header block, and the body copy. -/
inductive Ev where
  | setContentRange (lo hi total : Int)
  | setContentLength (n : Int)
  | setAcceptRanges
  | setContentType
  | writeHeader (status : Nat)
  | writeBody
deriving DecidableEq

/-- How a relay invocation ends: normal return, an error return carrying the
specific error, or a Go panic (bad IV length inside `adjustIVForOffset` or
`cipher.NewCTR`). -/
inductive Outcome where
  | ok
  | err (e : Err)
  | panicked
deriving DecidableEq

/-- crypto/aes `NewCipher` succeeds exactly for 16-, 24- and 32-byte keys. -/
def aesKeyOk (keyLen : Nat) : Bool :=
  keyLen == 16 || keyLen == 24 || keyLen == 32

/-- `StreamFromUrl` from src/stream.go, reduced to its sink-event trace on a
successful upstream fetch.  Note the source order: `WriteHeader(200)` runs
before `Header().Set("Content-Type", ...)`. -/
def StreamFromUrlT (keyLen ivLen : Nat) : List Ev × Outcome :=
  if aesKeyOk keyLen then
    if ivLen = 16 then
      ([.writeHeader 200, .setContentType, .writeBody], .ok)
    else ([], .panicked)
  else ([], .err .keySize)

/-- `StreamFromByte` from src/stream.go, reduced to its sink-event trace;
`WriteHeader(200)` again precedes the `Content-Type` set. -/
def StreamFromByteT (size : Int) (keyLen ivLen : Nat) : List Ev × Outcome :=
  if aesKeyOk keyLen then
    if ivLen = 16 then
      ([.writeHeader 200, .setContentType, .writeBody], .ok)
    else ([], .panicked)
  else ([], .err .keySize)

/-- `StreamFromByteWithRange` from src/stream.go as a sink-event trace: parse
the range against `size` (an error returns before anything is written), panic
on a non-16-byte IV, fail on a bad key length, then — for a non-empty range
header — `WriteHeader(206)` FOLLOWED by the `Content-Range` set, then the
`Content-Type` set, then the body copy. -/
def StreamFromByteWithRangeT (size : Int) (keyLen ivLen : Nat) (byteRange : List Char) :
    List Ev × Outcome :=
  match parseByteRange byteRange size with
  | .error e => ([], .err e)
  | .ok (offset, len) =>
    if ivLen = 16 then
      if aesKeyOk keyLen then
        ((if byteRange ≠ [] then
            [.writeHeader 206, .setContentRange offset (offset + len - 1) size]
          else
            [.writeHeader 200]) ++ [.setContentType, .writeBody], .ok)
      else ([], .err .keySize)
    else ([], .panicked)

/-- `StreamFromUrlWithRange` from src/stream.go as a sink-event trace.  The
upstream HTTP response is abstracted into parameters: `crParsed` is the
upstream `Content-Range` header (`none` if absent, `some none` if present but
not matching `fmt.Sscanf`'s pattern — that error is swallowed and the total
size stays 0 — and `some (some (start, stop, size))` when parsed), `clVal`
the parsed upstream `Content-Length` header if present, `upStatus` the
upstream status code and `chunkLen` the response's `ContentLength`.  Here all
header sets precede `WriteHeader`. -/
def StreamFromUrlWithRangeT (crParsed : Option (Option (Int × Int × Int)))
    (clVal : Option Int) (upStatus : Nat) (chunkLen : Int)
    (keyLen ivLen : Nat) (byteRange : List Char) : List Ev × Outcome :=
  let totalSize : Int :=
    match crParsed with
    | some (some (_, _, sz)) => sz
    | some none => 0
    | none => clVal.getD 0
  match parseRangeOffset byteRange with
  | .error e => ([], .err e)
  | .ok offset =>
    if ivLen = 16 then
      if aesKeyOk keyLen then
        (if byteRange ≠ [] ∧ upStatus = 206 then
          [.setContentRange offset (offset + chunkLen - 1) totalSize,
           .setContentLength chunkLen, .setAcceptRanges, .setContentType,
           .writeHeader 206, .writeBody]
        else
          [.setContentLength totalSize, .setAcceptRanges, .setContentType,
           .writeHeader 200, .writeBody], .ok)
      else ([], .err .keySize)
    else ([], .panicked)

/-- `true` when every `Header().Set` event of the trace happens strictly
before the first `WriteHeader` and the first body write (the commit points of
the status/header block). -/
def headersBeforeCommitAux : List Ev → Bool → Bool
  | [], _ => true
  | e :: rest, committed =>
    match e with
    | .writeHeader _ => headersBeforeCommitAux rest true
    | .writeBody => headersBeforeCommitAux rest true
    | _ => !committed && headersBeforeCommitAux rest committed

/-- All header-set events of a trace precede its commit points. -/
def headersBeforeCommit (t : List Ev) : Bool :=
  headersBeforeCommitAux t false

/-- The claim-side reading of a valid single-range header, written from the
spec's wording: the header carries the `"bytes="` marker and the remainder
splits into exactly two dash-separated fields that both parse as integers;
the two parsed bounds are returned. -/
def rangeHeaderFields (br : List Char) : Option (Int × Int) :=
  if bytesMarker.isPrefixOf br then
    match splitOnChar '-' (br.drop 6) with
    | [a, b] =>
      match parseInt64 a, parseInt64 b with
      | some x, some y => some (x, y)
      | _, _ => none
    | _ => none
  else none

/-- The format-flavoured errors (everything except the bounds error). -/
def isFormatErr : Err → Bool
  | .invalidRangeHeader => true
  | .invalidRangeFormat => true
  | .invalidStartByte => true
  | .invalidEndByte => true
  | _ => false

/-- Folding the big-endian accumulator from an arbitrary seed. -/
theorem beNat_foldl (x : Nat) (l : List Nat) :
    l.foldl (fun a b => a * 256 + b) x = x * 256 ^ l.length + beNat l := by
  induction l generalizing x with
  | nil => simp [beNat]
  | cons c t ih =>
    simp only [List.foldl_cons, List.length_cons, beNat, Nat.zero_mul, Nat.zero_add]
    rw [ih (x * 256 + c), ih c]
    ring

/-- Big-endian value of a concatenation. -/
theorem beNat_append (a b : List Nat) :
    beNat (a ++ b) = beNat a * 256 ^ b.length + beNat b := by
  unfold beNat
  rw [List.foldl_append]
  exact beNat_foldl _ b

/-- `beBytes w` always produces `w` bytes. -/
theorem beBytes_length (w n : Nat) : (beBytes w n).length = w := by
  induction w generalizing n with
  | zero => rfl
  | succ k ih => simp [beBytes, ih]

/-- `beBytes` and `beNat` round-trip modulo the width. -/
theorem beNat_beBytes (w n : Nat) : beNat (beBytes w n) = n % 256 ^ w := by
  induction w generalizing n with
  | zero => simp [beBytes, beNat, Nat.mod_one]
  | succ k ih =>
    rw [beBytes, beNat_append, ih]
    have h : (256 : Nat) ^ (k + 1) = 256 * 256 ^ k := by ring
    rw [h, Nat.mod_mul]
    simp only [List.length_singleton, pow_one, beNat, List.foldl_cons, List.foldl_nil,
      Nat.zero_mul, Nat.zero_add]
    ring

/-- Closed form of `adjustIVForOffset` for a 16-byte IV and a non-negative
offset: keep the first 8 bytes, re-encode the counter plus `offset / 16`
modulo 2^64 into the last 8. -/
theorem adjustIVForOffset_eq (iv : List Nat) (offset : Int)
    (h16 : iv.length = 16) (hpos : 0 ≤ offset) :
    adjustIVForOffset iv offset
      = some (iv.take 8 ++ beBytes 8 ((beNat (iv.drop 8) + offset.toNat / 16) % 2 ^ 64)) := by
  obtain ⟨m, rfl⟩ : ∃ m : Nat, offset = (m : Int) :=
    ⟨offset.toNat, (Int.toNat_of_nonneg hpos).symm⟩
  have htd : Int.tdiv ((m : Int)) (16 : Int) = ((m / 16 : Nat) : Int) := rfl
  have hmod : ((beNat (iv.drop 8) : Int) + ((m / 16 : Nat) : Int)) % ((2 : Int) ^ 64)
      = (((beNat (iv.drop 8) + m / 16) % 2 ^ 64 : Nat) : Int) := by
    push_cast
    omega
  unfold adjustIVForOffset
  rw [if_pos h16]
  simp only [htd, hmod, Int.toNat_natCast]

/-- C1 (amended): for every block cipher `E`, every 16-byte IV and every
non-negative offset that is a multiple of 16, PROVIDED the 64-bit counter in
the IV's last 8 bytes plus `offset / 16` does not overflow 2^64, the CTR
keystream started from `adjustIVForOffset iv offset` equals, block by block,
the tail of the keystream started from `iv` beginning at block `offset / 16`.
The overflow proviso is forced: Go's CTR increments carry through all 16 IV
bytes while `adjustIVForOffset` wraps the low 8 bytes modulo 2^64. -/
theorem C1_ctr_resync_tail (E : List Nat → List Nat) (iv out : List Nat) (offset : Int)
    (h16 : iv.length = 16) (hpos : 0 ≤ offset) (halign : (16 : Int) ∣ offset)
    (hno : beNat (iv.drop 8) + offset.toNat / 16 < 2 ^ 64)
    (hout : adjustIVForOffset iv offset = some out) (j : Nat) :
    ctrKeystreamBlock E out j = ctrKeystreamBlock E iv (offset.toNat / 16 + j) := by
  rw [adjustIVForOffset_eq iv offset h16 hpos] at hout
  have hmod : (beNat (iv.drop 8) + offset.toNat / 16) % 2 ^ 64
      = beNat (iv.drop 8) + offset.toNat / 16 := Nat.mod_eq_of_lt hno
  have hout2 : out
      = iv.take 8 ++ beBytes 8 (beNat (iv.drop 8) + offset.toNat / 16) := by
    rw [← hmod]
    exact (Option.some.inj hout).symm
  have h256 : (256 : Nat) ^ 8 = 2 ^ 64 := by norm_num
  have hdl : (iv.drop 8).length = 8 := by rw [List.length_drop, h16]
  have hbe : beNat out = beNat iv + offset.toNat / 16 := by
    conv_rhs => rw [← List.take_append_drop 8 iv]
    rw [hout2, beNat_append, beNat_append, beBytes_length, beNat_beBytes, hdl, h256, hmod]
    ring
  unfold ctrKeystreamBlock ctrCounterBlock
  rw [hbe, Nat.add_assoc]

/-- C1 witness: the zero IV at offset 32 with the identity as block cipher:
the resynchronized stream's first keystream block is block 2 of the original
stream. -/
theorem C1_ctr_resync_tail_witness :
    ctrKeystreamBlock id (List.replicate 8 0 ++ beBytes 8 2) 0
      = ctrKeystreamBlock id (List.replicate 16 0) ((32 : Int).toNat / 16 + 0) :=
  C1_ctr_resync_tail id (List.replicate 16 0) (List.replicate 8 0 ++ beBytes 8 2) 32
    (by decide) (by decide) (by decide) (by decide) (by decide) 0

/-- C1 counterexample: the claim as stated (no overflow proviso) is false.
Take the IV whose low 8 bytes are all 0xff (64-bit counter 2^64 - 1), offset
16 and the identity block cipher: `adjustIVForOffset` wraps the counter to 0,
but block 1 of the original Go CTR stream carries into byte 7, so the
adjusted stream's block 0 differs from the original stream's block 1. -/
theorem C1_ctr_resync_counterexample :
    adjustIVForOffset (List.replicate 8 0 ++ List.replicate 8 255) 16
        = some (List.replicate 16 0)
      ∧ ctrKeystreamBlock id (List.replicate 16 0) 0
          ≠ ctrKeystreamBlock id (List.replicate 8 0 ++ List.replicate 8 255)
              ((16 : Int).toNat / 16 + 0) := by
  decide

/-- C2: for every 16-byte IV and every offset ≥ 0, `adjustIVForOffset` reads
the last 8 bytes of the IV as a big-endian unsigned 64-bit integer, adds
`offset / 16` (floor division) wrapping modulo 2^64, and writes the result
back big-endian into the last 8 bytes of the returned IV. -/
theorem C2_counter_update (iv : List Nat) (offset : Int)
    (h16 : iv.length = 16) (hpos : 0 ≤ offset) :
    (adjustIVForOffset iv offset).map (fun l => l.drop 8)
      = some (beBytes 8 ((beNat (iv.drop 8) + offset.toNat / 16) % 2 ^ 64)) := by
  rw [adjustIVForOffset_eq iv offset h16 hpos]
  simp only [Option.map_some']
  congr 1
  exact List.drop_left' (by rw [List.length_take, h16]; omega)

/-- C2 witness: zero IV, offset 32: the new counter field encodes 2. -/
theorem C2_counter_update_witness :
    (adjustIVForOffset (List.replicate 16 0) 32).map (fun l => l.drop 8)
      = some [0, 0, 0, 0, 0, 0, 0, 2] := by
  have h := C2_counter_update (List.replicate 16 0) 32 (by decide) (by decide)
  rw [h]
  decide

/-- C8: `adjustIVForOffset` demands a 16-byte IV: on any 16-byte IV the panic
branch is not taken and a 16-byte IV is returned; on any other length the
call is a fatal precondition failure (the panic, modelled as `none`), not a
recoverable error value. -/
theorem C8_iv_length_guard (iv : List Nat) (offset : Int) :
    (iv.length = 16 → ∃ out, adjustIVForOffset iv offset = some out ∧ out.length = 16)
      ∧ (iv.length ≠ 16 → adjustIVForOffset iv offset = none) := by
  constructor
  · intro h16
    unfold adjustIVForOffset
    rw [if_pos h16]
    refine ⟨_, rfl, ?_⟩
    simp only [List.length_append, List.length_take, beBytes_length, h16]
    omega
  · intro h
    unfold adjustIVForOffset
    rw [if_neg h]

/-- C8 witness: a 16-byte IV returns a 16-byte IV; a 1-byte IV hits the
fatal branch. -/
theorem C8_iv_length_guard_witness :
    (∃ out, adjustIVForOffset (List.replicate 16 0) 0 = some out ∧ out.length = 16)
      ∧ adjustIVForOffset [0] 0 = none :=
  ⟨(C8_iv_length_guard (List.replicate 16 0) 0).1 (by decide),
   (C8_iv_length_guard [0] 0).2 (by decide)⟩

/-- C9: for every 16-byte IV and every offset ≥ 0, the returned IV keeps the
input's first 8 bytes unchanged (the function builds a fresh copy, so in this
pure model the input itself is untouched by construction). -/
theorem C9_nonce_preserved (iv : List Nat) (offset : Int)
    (h16 : iv.length = 16) (hpos : 0 ≤ offset) :
    (adjustIVForOffset iv offset).map (fun l => l.take 8) = some (iv.take 8) := by
  rw [adjustIVForOffset_eq iv offset h16 hpos]
  simp only [Option.map_some']
  congr 1
  exact List.take_left' (by rw [List.length_take, h16]; omega)

/-- C9 witness: on a concrete 16-byte IV with distinct halves, the first
8 bytes survive an offset-48 resynchronization. -/
theorem C9_nonce_preserved_witness :
    (adjustIVForOffset (List.replicate 8 7 ++ List.replicate 8 9) 48).map
        (fun l => l.take 8)
      = some ((List.replicate 8 7 ++ List.replicate 8 9).take 8) :=
  C9_nonce_preserved (List.replicate 8 7 ++ List.replicate 8 9) 48 (by decide) (by decide)

/-- Destructor for a successful claim-side header reading. -/
theorem rangeHeaderFields_some {br : List Char} {s t : Int}
    (h : rangeHeaderFields br = some (s, t)) :
    bytesMarker.isPrefixOf br = true ∧
      ∃ a b, splitOnChar '-' (br.drop 6) = [a, b] ∧
        parseInt64 a = some s ∧ parseInt64 b = some t := by
  unfold rangeHeaderFields at h
  split at h
  · rename_i hp
    refine ⟨hp, ?_⟩
    split at h
    · rename_i a b heq
      split at h
      · rename_i x y hx hy
        simp only [Option.some.injEq, Prod.mk.injEq] at h
        exact ⟨a, b, heq, by rw [hx, h.1], by rw [hy, h.2]⟩
      · simp at h
    · simp at h
  · simp at h

/-- On a well-formed header, `parseByteRange` only checks the bounds. -/
theorem parseByteRange_of_fields {br : List Char} {s t : Int} (size : Int)
    (h : rangeHeaderFields br = some (s, t)) :
    parseByteRange br size
      = if s > t ∨ t ≥ size then .error .rangeOutOfBounds else .ok (s, t - s + 1) := by
  obtain ⟨hp, a, b, hsp, ha, hb⟩ := rangeHeaderFields_some h
  have hne : br ≠ [] := by
    intro h0
    rw [h0] at hp
    exact absurd hp (by decide)
  unfold parseByteRange
  rw [if_neg hne, if_pos hp]
  simp only [hsp, ha, hb]

/-- On a non-empty header that is not well-formed, `parseByteRange` fails with
one of the format-flavoured errors. -/
theorem parseByteRange_no_fields {br : List Char} (size : Int)
    (hne : br ≠ []) (h : rangeHeaderFields br = none) :
    ∃ e, parseByteRange br size = .error e ∧ isFormatErr e = true := by
  unfold parseByteRange
  rw [if_neg hne]
  by_cases hp : bytesMarker.isPrefixOf br = true
  · rw [if_pos hp]
    unfold rangeHeaderFields at h
    rw [if_pos hp] at h
    rcases hsp : splitOnChar '-' (br.drop 6) with _ | ⟨x, _ | ⟨y, _ | ⟨z, tl⟩⟩⟩
    · exact ⟨.invalidRangeFormat, rfl, rfl⟩
    · exact ⟨.invalidRangeFormat, rfl, rfl⟩
    · rw [hsp] at h
      rcases hpa : parseInt64 x with _ | v
      · simp only [hpa]
        exact ⟨.invalidStartByte, rfl, rfl⟩
      · rcases hpb : parseInt64 y with _ | w
        · simp only [hpa, hpb]
          exact ⟨.invalidEndByte, rfl, rfl⟩
        · simp only [hpa, hpb] at h
          simp at h
    · exact ⟨.invalidRangeFormat, rfl, rfl⟩
  · rw [if_neg hp]
    exact ⟨.invalidRangeHeader, rfl, rfl⟩

/-- C5: `parseByteRange` fails exactly on invalid headers: a format-flavoured
error exactly when the header is non-empty and not of the single-range form
`bytes=start-end` with two integer fields; the bounds error exactly when the
header is well-formed but `start ≤ end ∧ end < size` fails; success exactly
for the empty header or a well-formed in-bounds one. -/
theorem C5_parse_error_classification (br : List Char) (size : Int) :
    ((∃ e, parseByteRange br size = .error e ∧ isFormatErr e = true)
        ↔ br ≠ [] ∧ rangeHeaderFields br = none)
      ∧ (parseByteRange br size = .error .rangeOutOfBounds
        ↔ ∃ s t, rangeHeaderFields br = some (s, t) ∧ (s > t ∨ t ≥ size))
      ∧ ((∃ v, parseByteRange br size = .ok v)
        ↔ br = [] ∨ ∃ s t, rangeHeaderFields br = some (s, t) ∧ s ≤ t ∧ t < size) := by
  by_cases hbr : br = []
  · subst hbr
    have h1 : parseByteRange ([] : List Char) size = .ok (0, size) := rfl
    have h2 : rangeHeaderFields ([] : List Char) = none := by decide
    exact ⟨by simp [h1, h2], by simp [h1, h2], by simp [h1]⟩
  · rcases hf : rangeHeaderFields br with _ | ⟨s, t⟩
    · obtain ⟨e, he, hfe⟩ := parseByteRange_no_fields size hbr hf
      refine ⟨⟨fun _ => ⟨hbr, rfl⟩, fun _ => ⟨e, he, hfe⟩⟩, ?_, ?_⟩
      · constructor
        · intro h'
          rw [he] at h'
          injection h' with h''
          subst h''
          simp [isFormatErr] at hfe
        · rintro ⟨s, t, hst, -⟩
          cases hst
      · constructor
        · rintro ⟨v, hv⟩
          rw [he] at hv
          cases hv
        · rintro (h' | ⟨s, t, hst, -⟩)
          · exact absurd h' hbr
          · cases hst
    · have hpb := parseByteRange_of_fields size hf
      by_cases hbad : s > t ∨ t ≥ size
      · rw [if_pos hbad] at hpb
        refine ⟨?_, ?_, ?_⟩
        · constructor
          · rintro ⟨e, he, hfe⟩
            rw [hpb] at he
            injection he with h''
            subst h''
            simp [isFormatErr] at hfe
          · rintro ⟨-, hnone⟩
            cases hnone
        · exact ⟨fun _ => ⟨s, t, rfl, hbad⟩, fun _ => hpb⟩
        · constructor
          · rintro ⟨v, hv⟩
            rw [hpb] at hv
            cases hv
          · rintro (h' | ⟨s', t', hst, hle, hlt⟩)
            · exact absurd h' hbr
            · simp only [Option.some.injEq, Prod.mk.injEq] at hst
              obtain ⟨rfl, rfl⟩ := hst
              rcases hbad with h' | h' <;> exact absurd h' (by omega)
      · rw [if_neg hbad] at hpb
        push_neg at hbad
        refine ⟨?_, ?_, ?_⟩
        · constructor
          · rintro ⟨e, he, hfe⟩
            rw [hpb] at he
            cases he
          · rintro ⟨-, hnone⟩
            cases hnone
        · constructor
          · intro h'
            rw [hpb] at h'
            cases h'
          · rintro ⟨s', t', hst, hviol⟩
            simp only [Option.some.injEq, Prod.mk.injEq] at hst
            obtain ⟨rfl, rfl⟩ := hst
            rcases hviol with h' | h' <;> exact absurd h' (by omega)
        · exact ⟨fun _ => Or.inr ⟨s, t, rfl, hbad.1, hbad.2⟩, fun _ => ⟨(s, t - s + 1), hpb⟩⟩

/-- C5 witness: `bytes=10-5` against size 100 is well-formed but violates the
bounds, so it fails with the bounds error. -/
theorem C5_parse_error_classification_witness :
    parseByteRange ("bytes=10-5".toList) 100 = .error .rangeOutOfBounds :=
  (C5_parse_error_classification ("bytes=10-5".toList) 100).2.1.mpr
    ⟨10, 5, by decide, by decide⟩

/-- C6: on success `parseByteRange` returns the whole resource for the empty
header, and offset `start` with length `end - start + 1` for a valid
in-bounds header. -/
theorem C6_parse_success_values (size : Int) (br : List Char) (s t : Int)
    (h : rangeHeaderFields br = some (s, t)) (h1 : s ≤ t) (h2 : t < size) :
    parseByteRange ([] : List Char) size = .ok (0, size)
      ∧ parseByteRange br size = .ok (s, t - s + 1) := by
  refine ⟨rfl, ?_⟩
  rw [parseByteRange_of_fields size h, if_neg (by omega)]

/-- C6 witness: the spec's worked example, `bytes=1024-2048` against size
4096, yields offset 1024 and length 1025. -/
theorem C6_parse_success_values_witness :
    parseByteRange ("bytes=1024-2048".toList) 4096 = .ok (1024, 1025) := by
  have h := C6_parse_success_values 4096 ("bytes=1024-2048".toList) 1024 2048
    (by decide) (by decide) (by decide)
  rw [h.2]
  decide

/-- C7: any range-parse failure (an out-of-bounds end included) makes
`StreamFromByteWithRange` return that error with an empty sink trace: nothing
is written and no header is set before the error return. -/
theorem C7_error_before_write (size : Int) (keyLen ivLen : Nat) (br : List Char) (e : Err)
    (h : parseByteRange br size = .error e) :
    StreamFromByteWithRangeT size keyLen ivLen br = ([], .err e) := by
  unfold StreamFromByteWithRangeT
  rw [h]

/-- C7 witness: `bytes=0-200` against a 100-byte resource fails out of bounds
with an untouched sink. -/
theorem C7_error_before_write_witness :
    StreamFromByteWithRangeT 100 32 16 ("bytes=0-200".toList)
      = ([], .err .rangeOutOfBounds) :=
  C7_error_before_write 100 32 16 ("bytes=0-200".toList) .rangeOutOfBounds (by decide)

/-- C4 (amended): `parseRangeOffset` returns 0 on the empty header, the
parsed first field on a prefixed header with exactly two dash-separated
fields whose FIRST field is an integer, the integer-parse error when that
first field is not an integer, and `InvalidRangeFormat` when the split does
not give exactly two fields.  The second field is never parsed (the
counterexample, which forces the amendment). -/
theorem C4_parse_range_offset (br a b : List Char) (v : Int) :
    parseRangeOffset ([] : List Char) = .ok 0
      ∧ (bytesMarker.isPrefixOf br = true → splitOnChar '-' (br.drop 6) = [a, b] →
          parseInt64 a = some v → parseRangeOffset br = .ok v)
      ∧ (bytesMarker.isPrefixOf br = true → splitOnChar '-' (br.drop 6) = [a, b] →
          parseInt64 a = none → parseRangeOffset br = .error .numError)
      ∧ (bytesMarker.isPrefixOf br = true →
          (splitOnChar '-' (br.drop 6)).length ≠ 2 →
          parseRangeOffset br = .error .invalidRangeFormat) := by
  refine ⟨rfl, ?_, ?_, ?_⟩
  · intro hp hsp hpa
    unfold parseRangeOffset
    rw [if_pos hp]
    simp only [hsp, hpa]
  · intro hp hsp hpa
    unfold parseRangeOffset
    rw [if_pos hp]
    simp only [hsp, hpa]
  · intro hp hlen
    unfold parseRangeOffset
    rw [if_pos hp]
    rcases hsp : splitOnChar '-' (br.drop 6) with _ | ⟨x, _ | ⟨y, _ | ⟨z, tl⟩⟩⟩
    · rfl
    · rfl
    · rw [hsp] at hlen
      simp at hlen
    · rfl

/-- C4 witness: a valid two-integer header returns its start; a three-field
split is an `InvalidRangeFormat` failure. -/
theorem C4_parse_range_offset_witness :
    parseRangeOffset ("bytes=1024-2048".toList) = .ok 1024
      ∧ parseRangeOffset ("bytes=1-2-3".toList) = .error .invalidRangeFormat :=
  ⟨(C4_parse_range_offset ("bytes=1024-2048".toList) ("1024".toList) ("2048".toList)
      1024).2.1 (by decide) (by decide) (by decide),
   (C4_parse_range_offset ("bytes=1-2-3".toList) [] [] 0).2.2.2 (by decide) (by decide)⟩

/-- C4 counterexample: the claim says `parseRangeOffset` fails when EITHER
dash-separated field is not an integer, but the second field is never parsed:
`bytes=5-x` succeeds with offset 5 although `x` is not an integer. -/
theorem C4_parse_range_offset_counterexample :
    parseRangeOffset ("bytes=5-x".toList) = .ok 5
      ∧ parseInt64 ("x".toList) = none := by
  decide

/-- C10: every non-empty header without the `bytes=` marker (e.g. `6-25` or
`items=0-9`) makes `parseRangeOffset` return offset 0 with no error, so the
remote-path relay proceeds normally instead of rejecting the header. -/
theorem C10_no_marker_silent_zero (br : List Char) (hne : br ≠ [])
    (hp : bytesMarker.isPrefixOf br = false) :
    parseRangeOffset br = .ok 0
      ∧ ∀ crParsed clVal upStatus chunkLen,
          (StreamFromUrlWithRangeT crParsed clVal upStatus chunkLen 32 16 br).2 = .ok := by
  have h0 : parseRangeOffset br = .ok 0 := by
    unfold parseRangeOffset
    rw [if_neg (by simp [hp])]
  refine ⟨h0, ?_⟩
  intro crParsed clVal upStatus chunkLen
  simp only [StreamFromUrlWithRangeT, h0]
  rfl

/-- C10 witness: the header `6-25` (no marker) is silently accepted as
offset 0 and the relay completes without error. -/
theorem C10_no_marker_silent_zero_witness :
    parseRangeOffset ("6-25".toList) = .ok 0
      ∧ (StreamFromUrlWithRangeT none none 200 0 32 16 ("6-25".toList)).2 = .ok :=
  ⟨(C10_no_marker_silent_zero ("6-25".toList) (by decide) (by decide)).1,
   (C10_no_marker_silent_zero ("6-25".toList) (by decide) (by decide)).2 none none 200 0⟩

/-- C3 (the code violates the claim): in `StreamFromUrl`, `StreamFromByte`
and `StreamFromByteWithRange` the response headers are set AFTER
`WriteHeader` commits the status/header block; only `StreamFromUrlWithRange`
sets every header before committing.  Evaluated at concrete inputs: a 32-byte
key, a 16-byte IV, a 26-byte resource and the range `bytes=5-20`. -/
theorem C3_headers_after_commit :
    headersBeforeCommit (StreamFromUrlT 32 16).1 = false
      ∧ headersBeforeCommit (StreamFromByteT 26 32 16).1 = false
      ∧ headersBeforeCommit (StreamFromByteWithRangeT 26 32 16 ("bytes=5-20".toList)).1 = false
      ∧ headersBeforeCommit
          (StreamFromUrlWithRangeT (some (some (6, 25, 26))) none 206 20 32 16
            ("bytes=6-25".toList)).1 = true := by
  decide

end SecureStream
